import Mathlib

/-!
A shallow embedding of `main` of `filter_chirp.c`.

The program reads a two-column CSV file, copies the samples into complex arrays and
writes them, with the (never computed) filtered samples, to an output CSV file.

The embedding follows `main` statement by statement.  What is not the program's own code
is modelled as follows.

* The C library is a parameter, `Libc F`: a `float` is a value of an arbitrary type `F`,
  and the library supplies the call `sscanf(line, "%f,%f\n", ..)` and the constant
  `+0.0f`.  The properties of `main` hold for every library.  `sscanfGnu` is one such
  `sscanf`; it converts a field as the GNU C library does and serves to run the model
  on concrete files.
* `printf` / `fprintf` calls are recorded as the format string with its arguments
  (`Printf`); rendering the directives is left to the library.
* The file system is the pair of functions `fopenRead`, `fopenWrite` of `Env`; a text file
  is its list of characters.
* `input_x` and `input_y` have `BUFF_SIZE` entries and line 126 stores at index `i`
  without testing `i`.  ISO C does not define a store at an index of `BUFF_SIZE` or
  more.  The model records the index of the first such store and lets the run go on as
  the program text says: such a store changes at most the contents of the two arrays,
  in a way that the environment decides (`oob_x`, `oob_y`), and no other object.  In
  the runs that ISO C defines, the counters `i` and `n`, of type `unsigned int`, do not
  exceed `BUFF_SIZE`; the model counts in natural numbers.
* `malloc` is assumed to succeed; the cells it returns hold indeterminate values, which
  are part of `Env`.
-/

namespace FilterChirp

/-! ## Constants -/

/-- The macro `BUFF_SIZE` (line 30). -/
def BUFF_SIZE : Nat := 1024

/-- The value of `EXIT_FAILURE` (`stdlib.h`). -/
def EXIT_FAILURE : Int := 1

/-- The value of `EOF` (`stdio.h`). -/
def EOF : Int := -1

/-! ## The C library -/

/-- What the call `sscanf(line, "%f,%f\n", &a, &b)` did: nothing stored after an input
failure or after a matching failure, the first field stored, or both fields stored. -/
inductive Scanned (F : Type)
  | inputFailure
  | matchingFailure
  | first (a : F)
  | both (a b : F)
deriving DecidableEq, Repr

/-- The value that `sscanf` returns: `EOF` after an input failure before the first
conversion, else the number of fields stored. -/
def Scanned.rv {F : Type} : Scanned F → Int
  | .inputFailure => EOF
  | .matchingFailure => 0
  | .first _ => 1
  | .both _ _ => 2

/-- What the program needs from the C library. -/
structure Libc (F : Type) where
  /-- The call `sscanf(s, "%f,%f\n", &a, &b)` on the C string `s` -/
  sscanf : List Char → Scanned F
  /-- The constant `+0.0f` -/
  zero : F

/-- A `float complex`: real and imaginary part. -/
structure CFloatComplex (F : Type) where
  re : F
  im : F
deriving DecidableEq, Repr

/-- Conversion of a `float` to `float complex` (C11 6.3.1.7): the imaginary part is zero. -/
def ofReal {F : Type} (L : Libc F) (v : F) : CFloatComplex F := ⟨v, L.zero⟩

/-- The function `crealf`. -/
def crealf {F : Type} (z : CFloatComplex F) : F := z.re

/-- The function `cimagf`. -/
def cimagf {F : Type} (z : CFloatComplex F) : F := z.im

/-! ## Files, buffers and recorded output -/

/-- The C string held in a character buffer: the characters before the first NUL. -/
def cstr : List Char → List Char
  | [] => []
  | c :: cs => if c = '\x00' then [] else c :: cstr cs

/-- The successive buffers that `getline` returns on a stream with the given contents,
until it returns -1: each line with its terminating newline, the last one possibly
without. -/
def getlines : List Char → List (List Char)
  | [] => []
  | c :: cs =>
      if c = '\n' then [c] :: getlines cs
      else
        match getlines cs with
        | [] => [[c]]
        | l :: ls => (c :: l) :: ls

/-- An argument of a `printf`-family call. -/
inductive Arg (F : Type)
  | uint (n : Nat)
  | float (v : F)
  | str (s : String)
deriving DecidableEq, Repr

/-- A recorded `printf` / `fprintf` call: the format string and its arguments. -/
structure Printf (F : Type) where
  format : String
  args : List (Arg F)
deriving DecidableEq, Repr

/-- The assignment `buf[i] = v`. -/
def store {α : Type} (buf : Nat → α) (i : Nat) (v : α) : Nat → α :=
  fun j => if j = i then v else buf j

/-- The loop `for (i = 0; i < n; i++) body`, acting on a state. -/
def forLoop {σ : Type} (n : Nat) (body : Nat → σ → σ) (s : σ) : σ :=
  (List.range n).foldl (fun acc i => body i acc) s

/-- The automatic arrays `input_x` and `input_y` (line 67).  A cell at an index of
`BUFF_SIZE` or more stands for what a read at that index finds. -/
structure Arrays (F : Type) where
  input_x : Nat → F
  input_y : Nat → F

/-- What the program finds around it. -/
structure Env (F : Type) where
  /-- Result of `fopen(path, "r")`: the contents of the file, `none` for `NULL` -/
  fopenRead : String → Option (List Char)
  /-- Whether `fopen(path, "w")` returns a stream -/
  fopenWrite : String → Bool
  /-- Indeterminate initial contents of the automatic array `input_x` -/
  input_x0 : Nat → F
  /-- Indeterminate initial contents of the automatic array `input_y` -/
  input_y0 : Nat → F
  /-- Effect on the two arrays of a store through `&input_x[i]` with `BUFF_SIZE ≤ i` -/
  oob_x : Nat → F → Arrays F → Arrays F
  /-- Effect on the two arrays of a store through `&input_y[i]` with `BUFF_SIZE ≤ i` -/
  oob_y : Nat → F → Arrays F → Arrays F
  /-- Indeterminate contents of the block allocated for `x` -/
  x0 : Nat → CFloatComplex F
  /-- Indeterminate contents of the block allocated for `y_orig` -/
  y_orig0 : Nat → CFloatComplex F
  /-- Indeterminate contents of the block allocated for `y_filt` -/
  y_filt0 : Nat → CFloatComplex F

/-! ## The program -/

/-- Lines 99-109: the names of the input and of the output file. -/
def fileNames (argv : List String) : String × String :=
  if argv.length ≠ 3 then ("chirp_data.csv", "output_data.csv")
  else (argv.getD 1 "", argv.getD 2 "")

/-- The lines that the loop of line 124 reads: all but the first, which line 122 discards. -/
def dataLines (contents : List Char) : List (List Char) :=
  (getlines contents).drop 1

/-- A store through `&input_x[i]`. -/
def assign_x {F : Type} (env : Env F) (i : Nat) (v : F) (m : Arrays F) : Arrays F :=
  if i < BUFF_SIZE then { m with input_x := store m.input_x i v } else env.oob_x i v m

/-- A store through `&input_y[i]`. -/
def assign_y {F : Type} (env : Env F) (i : Nat) (v : F) (m : Arrays F) : Arrays F :=
  if i < BUFF_SIZE then { m with input_y := store m.input_y i v } else env.oob_y i v m

/-- The stores that `sscanf(line, "%f,%f\n", &input_x[i], &input_y[i])` performs. -/
def Scanned.stores {F : Type} (env : Env F) (i : Nat) : Scanned F → Arrays F → Arrays F
  | .first a, m => assign_x env i a m
  | .both a b, m => assign_y env i b (assign_x env i a m)
  | _, m => m

/-- Whether `sscanf` stored anything. -/
def Scanned.stored {F : Type} : Scanned F → Bool
  | .first _ => true
  | .both _ _ => true
  | _ => false

/-- Records a store at index `i`: the index of the first store outside the arrays so far. -/
def noteStore (oob : Option Nat) (i : Nat) : Option Nat :=
  match oob with
  | some j => some j
  | none => if BUFF_SIZE ≤ i then some i else none

/-- How the loop of lines 123-135 ends; `oob` is the index of the first store outside the
arrays, if there was one. -/
inductive Ingest (F : Type)
  /-- The call `getline` returned -1 with `i` samples stored -/
  | eof (i : Nat) (m : Arrays F) (oob : Option Nat)
  /-- The call `sscanf` returned a value other than 2 on `line`, read at index `i` -/
  | parseError (i : Nat) (line : List Char) (oob : Option Nat)

/-- The index of the first store outside the arrays, if there was one. -/
def Ingest.oob {F : Type} : Ingest F → Option Nat
  | .eof _ _ oob => oob
  | .parseError _ _ oob => oob

/-- Lines 124-135 on the remaining lines of the file, with the current value of `i`, the
current contents of the two arrays, and the record of stores outside them. -/
def ingestLoop {F : Type} (L : Libc F) (env : Env F) :
    List (List Char) → Nat → Arrays F → Option Nat → Ingest F
  | [], i, m, oob => .eof i m oob
  | line :: rest, i, m, oob =>
      let r := L.sscanf (cstr line)
      let oob' := if r.stored then noteStore oob i else oob
      if r.rv ≠ 2 then .parseError i line oob'
      else ingestLoop L env rest (i + 1) (r.stores env i m) oob'

/-- A run that ended by `return` or `exit`. -/
structure Terminated (F : Type) where
  /-- Exit status -/
  status : Int
  /-- Calls of `printf` -/
  stdout : List (Printf F)
  /-- Calls of `fprintf(stderr, ..)` -/
  stderr : List (Printf F)
  /-- The file opened for writing, if one was: its name and the `fprintf` calls on it -/
  output : Option (String × List (Printf F))
deriving DecidableEq, Repr

/-- Result of a run: every run of the model ends by `return` or `exit`. -/
inductive Outcome (F : Type)
  | terminated (t : Terminated F)
deriving DecidableEq, Repr

/-- The header written by the `fprintf` of line 204. -/
def headerCall (F : Type) : Printf F :=
  ⟨"sample,x,y_orig_r,y_filt_i,y_filt_r,y_filt_i\n", []⟩

/-- The `fprintf` of lines 206-213 for sample `i`. -/
def rowCall {F : Type} (x y_orig y_filt : Nat → CFloatComplex F) (i : Nat) : Printf F :=
  ⟨"%d,%8.4f,%8.4f,%8.4f,%8.4f,%8.4f\n",
    [.uint i, .float (crealf (x i)), .float (crealf (y_orig i)), .float (cimagf (y_orig i)),
      .float (crealf (y_filt i)), .float (cimagf (y_filt i))]⟩

/-- The `fprintf` of lines 128-131. -/
def parseErrorCall (F : Type) (i : Nat) (line : List Char) : Printf F :=
  ⟨"Could not parse line[%3u]: \x27%s\x27\n", [.uint i, .str (String.mk (cstr line))]⟩

/-- The function `main` (lines 64-217). -/
def main {F : Type} (L : Libc F) (env : Env F) (argv : List String) : Outcome F :=
  let ifile_name := (fileNames argv).1
  let ofile_name := (fileNames argv).2
  let out1 : List (Printf F) :=
    [⟨"Attempting to read from file \x27%s\x27.\n", [.str ifile_name]⟩]
  match env.fopenRead ifile_name with
  | none =>
      .terminated ⟨EXIT_FAILURE, out1,
        [⟨"Failed to read from file \x27%s\x27.\n", [.str ifile_name]⟩], none⟩
  | some contents =>
      match ingestLoop L env (dataLines contents) 0 ⟨env.input_x0, env.input_y0⟩ none with
      | .parseError i line _ =>
          .terminated ⟨EXIT_FAILURE, out1, [parseErrorCall F i line], none⟩
      | .eof n m _ =>
          let arrays := forLoop n
            (fun i a =>
              (store a.1 i (ofReal L (m.input_x i)), store a.2 i (ofReal L (m.input_y i))))
            (env.x0, env.y_orig0)
          let x := arrays.1
          let y_orig := arrays.2
          let y_filt := env.y_filt0
          let out2 := out1 ++ [⟨"Attempting to write to file \x27%s\x27.\n", [.str ofile_name]⟩]
          if env.fopenWrite ofile_name = false then
            .terminated ⟨EXIT_FAILURE, out2,
              [⟨"Failed to write to file \x27%s\x27.\n", [.str ofile_name]⟩], none⟩
          else
            let fp := forLoop n (fun i fp => fp ++ [rowCall x y_orig y_filt i]) [headerCall F]
            .terminated ⟨0, out2, [], some (ofile_name, fp)⟩

/-- The filter parameters of lines 168-179.  The `float` values are the rationals they
denote; `1.0f / 1.0f` is exact in binary floating point. -/
structure FilterConfig where
  f_type : Nat
  b_high_pass : Nat
  b_low_pass : Nat
  f_format : Nat
  Fs : ℚ
  Fc : ℚ
  f0 : ℚ
  Ap : ℚ
  As : ℚ
  order : Nat
  fc : ℚ

/-- Lines 168-179; nothing later in `main` reads these values. -/
def filterConfig : FilterConfig :=
  let Fs : ℚ := 1
  let Fc : ℚ := 1
  { f_type := 0, b_high_pass := 0, b_low_pass := 0, f_format := 0,
    Fs := Fs, Fc := Fc, f0 := 1, Ap := 1, As := 1, order := 1, fc := Fc / Fs }

/-! ## A concrete library, to run the model -/

/-- The function `isspace` in the C locale. -/
def isspace (c : Char) : Bool :=
  c = ' ' || c = '\t' || c = '\n' || c = '\x0b' || c = '\x0c' || c = '\r'

/-- The function `isdigit`. -/
def isdigit (c : Char) : Bool := '0' ≤ c && c ≤ '9'

/-- The function `isxdigit`. -/
def isxdigit (c : Char) : Bool :=
  isdigit c || ('a' ≤ c && c ≤ 'f') || ('A' ≤ c && c ≤ 'F')

/-- Comparison with a letter, ignoring case. -/
def isLetter (lower upper c : Char) : Bool := c = lower || c = upper

/-- Skips white space, as a `%f` conversion and a white-space directive do. -/
def skipSpace : List Char → List Char
  | [] => []
  | c :: cs => if isspace c then skipSpace cs else c :: cs

/-- The loop in which a `%f` conversion of the GNU C library collects the digits, the
decimal point and the exponent of a numeral.  `hex`: the numeral began with `0x`;
`gotDigit`, `gotDot`, `gotE`: a digit, the point, the exponent letter has been read;
`lastE`: the exponent letter was the last character read.  The exponent letter is
collected in lower case.  Result: the characters collected and the unread input. -/
def numLoop (hex : Bool) : Bool → Bool → Bool → Bool → List Char → List Char × List Char
  | _, _, _, _, [] => ([], [])
  | gotDigit, gotDot, gotE, lastE, c :: cs =>
      if isdigit c then
        let r := numLoop hex true gotDot gotE false cs
        (c :: r.1, r.2)
      else if !gotE && hex && isxdigit c then
        let r := numLoop hex true gotDot gotE false cs
        (c :: r.1, r.2)
      else if gotE && lastE && (c = '-' || c = '+') then
        let r := numLoop hex gotDigit gotDot gotE false cs
        (c :: r.1, r.2)
      else if gotDigit && !gotE &&
          (if hex then isLetter 'p' 'P' c else isLetter 'e' 'E' c) then
        let r := numLoop hex gotDigit true true true cs
        ((if hex then 'p' else 'e') :: r.1, r.2)
      else if !gotDot && c = '.' then
        let r := numLoop hex gotDigit true gotE false cs
        (c :: r.1, r.2)
      else ([], c :: cs)

/-- The end of a `%f` conversion of a numeral: `start` has been collected before the
loop.  The conversion fails when nothing was collected, when only `0x` was, or when
`strtof` finds no digit to convert. -/
def finishNumber (start : List Char) (hex gotDigit : Bool) (input : List Char) :
    Option (List Char × List Char) :=
  let r := numLoop hex gotDigit false false false input
  let buf := start ++ r.1
  if buf.isEmpty then none
  else if hex && buf.length = 2 then none
  else if !buf.any isdigit then none
  else some (buf, r.2)

/-- A `%f` conversion of the GNU C library after the optional sign: `nan`, `inf`,
`infinity`, or a numeral.  Result: the characters collected and the unread input. -/
def scanUnsigned : List Char → Option (List Char × List Char)
  | [] => none
  | c :: cs =>
      if isLetter 'n' 'N' c then
        match cs with
        | a :: n :: rest =>
            if isLetter 'a' 'A' a && isLetter 'n' 'N' n then some ([c, a, n], rest) else none
        | _ => none
      else if isLetter 'i' 'I' c then
        match cs with
        | n :: f :: rest =>
            if isLetter 'n' 'N' n && isLetter 'f' 'F' f then
              match rest with
              | [] => some ([c, n, f], [])
              | i :: more =>
                  if isLetter 'i' 'I' i then
                    match more with
                    | n2 :: i2 :: t :: y :: left =>
                        if isLetter 'n' 'N' n2 && isLetter 'i' 'I' i2 && isLetter 't' 'T' t
                            && isLetter 'y' 'Y' y then
                          some ([c, n, f, i, n2, i2, t, y], left)
                        else none
                    | _ => none
                  else some ([c, n, f], i :: more)
            else none
        | _ => none
      else if c = '0' then
        match cs with
        | x :: rest =>
            if isLetter 'x' 'X' x then finishNumber ['0', x] true false rest
            else finishNumber ['0'] false true cs
        | [] => finishNumber ['0'] false true cs
      else finishNumber [] false false (c :: cs)

/-- A `%f` conversion of the GNU C library, after white space has been skipped: the
characters handed to `strtof` and the unread input, or `none` when the conversion fails. -/
def scanFloat : List Char → Option (List Char × List Char)
  | [] => none
  | c :: cs =>
      if c = '+' || c = '-' then
        match scanUnsigned cs with
        | some (buf, rest) => some (c :: buf, rest)
        | none => none
      else scanUnsigned (c :: cs)

/-- The call `sscanf(s, "%f,%f\n", &a, &b)` as the GNU C library performs it: white
space is skipped before each `%f`, the comma must follow the first field at once, the
final white-space directive cannot fail.  `strtof` gives the value of the characters
collected for a field. -/
def sscanfGnu {F : Type} (strtof : List Char → F) (s : List Char) : Scanned F :=
  match skipSpace s with
  | [] => .inputFailure
  | c1 :: s1 =>
      match scanFloat (c1 :: s1) with
      | none => .matchingFailure
      | some (t1, r1) =>
          match r1 with
          | [] => .first (strtof t1)
          | c :: r2 =>
              if c ≠ ',' then .first (strtof t1)
              else
                match skipSpace r2 with
                | [] => .first (strtof t1)
                | c2 :: s2 =>
                    match scanFloat (c2 :: s2) with
                    | none => .first (strtof t1)
                    | some (t2, _) => .both (strtof t1) (strtof t2)

/-- A library in which a `float` is the numeral it was converted from, and `+0.0f` the
numeral `0`. -/
def textLibc : Libc (List Char) := ⟨sscanfGnu id, ['0']⟩

/-- An environment holding one readable file.  Every indeterminate cell holds `junk`; a
store outside an array lands in the cell of that index and touches nothing else. -/
def oneFileEnv (path : String) (contents : List Char) (junk : List Char) :
    Env (List Char) :=
  { fopenRead := fun p => if p = path then some contents else none,
    fopenWrite := fun _ => true,
    input_x0 := fun _ => junk, input_y0 := fun _ => junk,
    oob_x := fun i v m => { m with input_x := store m.input_x i v },
    oob_y := fun i v m => { m with input_y := store m.input_y i v },
    x0 := fun _ => ⟨junk, junk⟩, y_orig0 := fun _ => ⟨junk, junk⟩,
    y_filt0 := fun _ => ⟨junk, junk⟩ }

/-- As `oneFileEnv`, with `input_y` placed just below `input_x` in memory, so that
`&input_y[BUFF_SIZE + k]` is `&input_x[k]`. -/
def adjacentEnv (path : String) (contents : List Char) (junk : List Char) :
    Env (List Char) :=
  { oneFileEnv path contents junk with
    oob_y := fun i v m => ⟨store m.input_x (i - BUFF_SIZE) v, store m.input_y i v⟩ }

/-- A file with a header and 1025 data lines `1,2`. -/
def overflowInput : List Char :=
  "x,y".toList ++ '\n' :: ((List.replicate 1025 ("1,2".toList ++ ['\n'])).flatten ++ [])

/-- A small input file: a header and two data lines. -/
def sampleInput : List Char := "x,y\n1.5,2\n-3,4e1\n".toList

/-- The environment in which `chirp_data.csv` is `sampleInput`. -/
def sampleEnv : Env (List Char) := oneFileEnv "chirp_data.csv" sampleInput ['7']

/-! ## Notions used to state the properties -/

/-- A data line on which `sscanf` converts both fields, returning 2. -/
def wellFormed {F : Type} (L : Libc F) (line : List Char) : Prop :=
  (L.sscanf (cstr line)).rv = 2

instance {F : Type} (L : Libc F) (line : List Char) : Decidable (wellFormed L line) := by
  unfold wellFormed; infer_instance

/-- The sample `(x, y)` that a well-formed data line stands for. -/
def sampleOf {F : Type} (L : Libc F) (line : List Char) : Option (F × F) :=
  match L.sscanf (cstr line) with
  | .both a b => some (a, b)
  | _ => none

/-- Splits a line at its commas. -/
def fields : List Char → List (List Char)
  | [] => [[]]
  | c :: cs =>
      if c = ',' then [] :: fields cs
      else
        match fields cs with
        | [] => [[c]]
        | f :: fs => (c :: f) :: fs

/-- A line without its final newline. -/
def chomp (line : List Char) : List Char :=
  if line.getLast? = some '\n' then line.dropLast else line

/-- The output row of sample `i`: the index, `x`, `y + 0j`, and the filtered sample. -/
def expectedRow {F : Type} (L : Libc F) (i : Nat) (p : F × F) (filt : CFloatComplex F) :
    Printf F :=
  ⟨"%d,%8.4f,%8.4f,%8.4f,%8.4f,%8.4f\n",
    [.uint i, .float p.1, .float p.2, .float L.zero, .float filt.re, .float filt.im]⟩

/-- What `printf` has been called with once the output file is about to be opened. -/
def progress (F : Type) (argv : List String) : List (Printf F) :=
  [⟨"Attempting to read from file \x27%s\x27.\n", [.str (fileNames argv).1]⟩,
   ⟨"Attempting to write to file \x27%s\x27.\n", [.str (fileNames argv).2]⟩]

/-! ## Lemmas on the loops -/

theorem rv_two_iff {F : Type} (r : Scanned F) : r.rv = 2 ↔ ∃ a b, r = .both a b := by
  cases r <;> simp [Scanned.rv, EOF]

theorem sampleOf_eq_some {F : Type} (L : Libc F) (line : List Char) (p : F × F)
    (h : sampleOf L line = some p) : L.sscanf (cstr line) = .both p.1 p.2 := by
  unfold sampleOf at h
  split at h
  · simp only [Option.some.injEq] at h
    subst h
    assumption
  · simp at h

theorem sampleOf_isSome_iff {F : Type} (L : Libc F) (line : List Char) :
    (sampleOf L line).isSome = true ↔ wellFormed L line := by
  unfold wellFormed
  rw [rv_two_iff]
  constructor
  · intro h
    obtain ⟨p, hp⟩ := Option.isSome_iff_exists.mp h
    exact ⟨p.1, p.2, sampleOf_eq_some L line p hp⟩
  · rintro ⟨a, b, e⟩
    simp [sampleOf, e]

theorem forLoop_succ {σ : Type} (n : Nat) (body : Nat → σ → σ) (s : σ) :
    forLoop (n + 1) body s = body n (forLoop n body s) := by
  simp [forLoop, List.range_succ, List.foldl_append]

theorem forLoop_append {α : Type} (n : Nat) (g : Nat → α) (init : List α) :
    forLoop n (fun i fp => fp ++ [g i]) init = init ++ (List.range n).map g := by
  induction n with
  | zero => simp [forLoop]
  | succ n ih => rw [forLoop_succ, ih]; simp [List.range_succ]

theorem forLoop_store {α β : Type} (n : Nat) (f : Nat → α) (g : Nat → β)
    (a0 : Nat → α) (b0 : Nat → β) (j : Nat) :
    (forLoop n (fun i a => (store a.1 i (f i), store a.2 i (g i))) (a0, b0)).1 j
        = (if j < n then f j else a0 j) ∧
    (forLoop n (fun i a => (store a.1 i (f i), store a.2 i (g i))) (a0, b0)).2 j
        = (if j < n then g j else b0 j) := by
  induction n with
  | zero => simp [forLoop]
  | succ n ih =>
    rw [forLoop_succ]
    obtain ⟨ih1, ih2⟩ := ih
    by_cases hj : j = n
    · subst hj; simp [store]
    · have : j < n + 1 ↔ j < n := by omega
      simp [store, hj, ih1, ih2, this]

theorem noteStore_inside (oob : Option Nat) (i : Nat) (hi : i < BUFF_SIZE) :
    noteStore oob i = oob := by
  cases oob with
  | none => simp [noteStore, Nat.not_le.mpr hi]
  | some j => rfl

theorem ingestLoop_nil {F : Type} (L : Libc F) (env : Env F) (i : Nat) (m : Arrays F)
    (oob : Option Nat) : ingestLoop L env [] i m oob = .eof i m oob := rfl

theorem ingestLoop_cons_both {F : Type} (L : Libc F) (env : Env F) (line : List Char)
    (rest : List (List Char)) (i : Nat) (m : Arrays F) (oob : Option Nat) (a b : F)
    (h : L.sscanf (cstr line) = .both a b) :
    ingestLoop L env (line :: rest) i m oob
      = ingestLoop L env rest (i + 1) (assign_y env i b (assign_x env i a m))
          (noteStore oob i) := by
  simp [ingestLoop, h, Scanned.rv, Scanned.stored, Scanned.stores]

/-- Well-formed lines that fit into the arrays are stored, sample `j` in cell `i + j`,
and the loop goes on with the lines that follow; the cells below `i` keep their
contents, and no store outside the arrays is recorded. -/
theorem ingestLoop_within {F : Type} (L : Libc F) (env : Env F) :
    ∀ (lines : List (List Char)) (samples : List (F × F)) (rest : List (List Char))
      (i : Nat) (m : Arrays F) (oob : Option Nat),
      lines.map (sampleOf L) = samples.map some →
      i + lines.length ≤ BUFF_SIZE →
      ∃ m', ingestLoop L env (lines ++ rest) i m oob
          = ingestLoop L env rest (i + lines.length) m' oob ∧
        (∀ j p, samples[j]? = some p → m'.input_x (i + j) = p.1 ∧ m'.input_y (i + j) = p.2) ∧
        (∀ k, k < i → m'.input_x k = m.input_x k ∧ m'.input_y k = m.input_y k) := by
  intro lines
  induction lines with
  | nil =>
    intro samples rest i m oob hs _
    have : samples = [] := by simpa using hs.symm
    subst this
    exact ⟨m, by simp, by simp, by simp⟩
  | cons line lines ih =>
    intro samples rest i m oob hs hlen
    cases samples with
    | nil => simp at hs
    | cons p ps =>
      simp only [List.map_cons, List.cons.injEq] at hs
      obtain ⟨hp, hps⟩ := hs
      have e := sampleOf_eq_some L line p hp
      simp only [List.length_cons] at hlen
      have hi : i < BUFF_SIZE := by omega
      obtain ⟨m', hrun, hcells, hframe⟩ :=
        ih ps rest (i + 1) (assign_y env i p.2 (assign_x env i p.1 m)) oob hps (by omega)
      refine ⟨m', ?_, ?_, ?_⟩
      · rw [List.cons_append, ingestLoop_cons_both L env line _ i m oob p.1 p.2 e,
          noteStore_inside oob i hi, hrun]
        simp only [List.length_cons]
        congr 1
        omega
      · intro j q hq
        cases j with
        | zero =>
          simp only [List.getElem?_cons_zero, Option.some.injEq] at hq
          subst hq
          obtain ⟨h1, h2⟩ := hframe i (by omega)
          simp [h1, h2, assign_x, assign_y, hi, store]
        | succ j =>
          simp only [List.getElem?_cons_succ] at hq
          have := hcells j q hq
          have e1 : i + (j + 1) = i + 1 + j := by omega
          rw [e1]
          exact this
      · intro k hk
        obtain ⟨h1, h2⟩ := hframe k (by omega)
        have hne : k ≠ i := by omega
        simp [h1, h2, assign_x, assign_y, hi, store, hne]

/-- On well-formed lines the loop runs to the end of the file, counting them. -/
theorem ingestLoop_valid {F : Type} (L : Libc F) (env : Env F) :
    ∀ (lines : List (List Char)) (i : Nat) (m : Arrays F) (oob : Option Nat),
      (∀ l ∈ lines, wellFormed L l) →
      ∃ m' oob', ingestLoop L env lines i m oob = .eof (i + lines.length) m' oob' := by
  intro lines
  induction lines with
  | nil => intro i m oob _; exact ⟨m, oob, by simp [ingestLoop]⟩
  | cons line lines ih =>
    intro i m oob h
    obtain ⟨a, b, e⟩ := (rv_two_iff _).mp (h line (by simp))
    obtain ⟨m', oob', hrun⟩ := ih (i + 1) (assign_y env i b (assign_x env i a m))
      (noteStore oob i) (fun l hl => h l (by simp [hl]))
    refine ⟨m', oob', ?_⟩
    rw [ingestLoop_cons_both L env line _ i m oob a b e, hrun]
    simp only [List.length_cons]
    congr 1
    omega

/-- A record of a store outside the arrays is kept to the end of the loop. -/
theorem ingestLoop_oob_keep {F : Type} (L : Libc F) (env : Env F) :
    ∀ (lines : List (List Char)) (i : Nat) (m : Arrays F) (j : Nat),
      (ingestLoop L env lines i m (some j)).oob = some j := by
  intro lines
  induction lines with
  | nil => intro i m j; rfl
  | cons line lines ih =>
    intro i m j
    simp only [ingestLoop, noteStore, ite_self]
    split
    · rfl
    · exact ih _ _ _

/-- Lines that fit into the free cells never make the loop store outside the arrays. -/
theorem ingestLoop_oob_none {F : Type} (L : Libc F) (env : Env F) :
    ∀ (lines : List (List Char)) (i : Nat) (m : Arrays F),
      i + lines.length ≤ BUFF_SIZE → (ingestLoop L env lines i m none).oob = none := by
  intro lines
  induction lines with
  | nil => intro i m _; rfl
  | cons line lines ih =>
    intro i m hlen
    simp only [List.length_cons] at hlen
    have hi : i < BUFF_SIZE := by omega
    simp only [ingestLoop, noteStore_inside none i hi, ite_self]
    split
    · rfl
    · exact ih _ _ (by omega)

/-- Well-formed lines that outnumber the free cells make the loop store at index
`BUFF_SIZE`, and that is its first store outside the arrays. -/
theorem ingestLoop_oob_first {F : Type} (L : Libc F) (env : Env F) :
    ∀ (lines : List (List Char)) (i : Nat) (m : Arrays F),
      (∀ l ∈ lines.take (BUFF_SIZE + 1 - i), wellFormed L l) →
      i ≤ BUFF_SIZE → BUFF_SIZE < i + lines.length →
      (ingestLoop L env lines i m none).oob = some BUFF_SIZE := by
  intro lines
  induction lines with
  | nil => intro i m _ h1 h2; simp at h2; omega
  | cons line lines ih =>
    intro i m hwf h1 h2
    have hpos : BUFF_SIZE + 1 - i = (BUFF_SIZE - i) + 1 := by omega
    rw [hpos, List.take_succ_cons] at hwf
    obtain ⟨a, b, e⟩ := (rv_two_iff _).mp (hwf line (by simp))
    rw [ingestLoop_cons_both L env line _ i m none a b e]
    by_cases hi : i = BUFF_SIZE
    · subst hi
      simp only [noteStore, Nat.le_refl, if_true]
      exact ingestLoop_oob_keep L env _ _ _ _
    · have hlt : i < BUFF_SIZE := by omega
      rw [noteStore_inside none i hlt]
      apply ih
      · intro l hl
        apply hwf l
        have : BUFF_SIZE + 1 - (i + 1) = BUFF_SIZE - i := by omega
        rw [this] at hl
        simp [hl]
      · omega
      · simp only [List.length_cons] at h2; omega

/-! ## Lemmas on `getlines` -/

theorem getlines_line (body rest : List Char) (h : '\n' ∉ body) :
    getlines (body ++ '\n' :: rest) = (body ++ ['\n']) :: getlines rest := by
  induction body with
  | nil => simp [getlines]
  | cons d ds ih =>
    have hd : d ≠ '\n' := fun e => h (by simp [e])
    have hds : '\n' ∉ ds := fun e => h (by simp [e])
    have e := ih hds
    simp only [List.cons_append, getlines, hd, if_false]
    show (match getlines (ds ++ '\n' :: rest) with
      | [] => [[d]]
      | l :: ls => (d :: l) :: ls) = _
    rw [e]

theorem getlines_replicate (n : Nat) (body rest : List Char) (h : '\n' ∉ body) :
    getlines ((List.replicate n (body ++ ['\n'])).flatten ++ rest)
      = List.replicate n (body ++ ['\n']) ++ getlines rest := by
  induction n with
  | zero => simp
  | succ n ih =>
    simp only [List.replicate_succ, List.flatten_cons, List.append_assoc, List.singleton_append,
      List.cons_append]
    rw [getlines_line body _ h]
    simp only [List.nil_append]
    rw [ih]

theorem dataLines_overflowInput :
    dataLines overflowInput = List.replicate 1024 ("1,2".toList ++ ['\n']) ++ ["1,2\n".toList] := by
  unfold dataLines overflowInput
  rw [getlines_line _ _ (by decide), getlines_replicate _ _ _ (by decide)]
  simp only [getlines, List.append_nil, List.drop_succ_cons, List.drop_zero]
  exact List.replicate_succ' 1024 ("1,2".toList ++ ['\n'])

/-! ## Lemmas on `main` -/

theorem samples_of_wellFormed {F : Type} (L : Libc F) :
    ∀ lines : List (List Char), (∀ l ∈ lines, wellFormed L l) →
      ∃ samples : List (F × F),
        lines.map (sampleOf L) = samples.map some ∧ samples.length = lines.length := by
  intro lines
  induction lines with
  | nil => intro _; exact ⟨[], rfl, rfl⟩
  | cons line rest ih =>
    intro h
    obtain ⟨ps, hps, hlen⟩ := ih (fun l hl => h l (by simp [hl]))
    have hs := (sampleOf_isSome_iff L line).mpr (h line (by simp))
    obtain ⟨p, hp⟩ := Option.isSome_iff_exists.mp hs
    exact ⟨p :: ps, by simp [hp, hps], by simp [hlen]⟩

theorem wellFormed_of_samples {F : Type} (L : Libc F) (lines : List (List Char))
    (samples : List (F × F)) (h : lines.map (sampleOf L) = samples.map some) :
    (∀ l ∈ lines, wellFormed L l) ∧ samples.length = lines.length := by
  constructor
  · intro l hl
    rw [← sampleOf_isSome_iff L]
    have : sampleOf L l ∈ lines.map (sampleOf L) := List.mem_map_of_mem _ hl
    rw [h] at this
    obtain ⟨p, _, hp⟩ := List.mem_map.mp this
    rw [← hp]; rfl
  · have := congrArg List.length h
    simpa using this.symm

/-- When the loop reaches the end of the file with `n` samples and the output file can be
opened, `main` returns 0 after writing the header and, for each `i < n`, the row made
from the cells `i` of the two arrays. -/
theorem main_of_eof {F : Type} (L : Libc F) (env : Env F) (argv : List String)
    (contents : List Char) (n : Nat) (m : Arrays F) (oob : Option Nat)
    (hopen : env.fopenRead (fileNames argv).1 = some contents)
    (hrun : ingestLoop L env (dataLines contents) 0 ⟨env.input_x0, env.input_y0⟩ none
      = .eof n m oob)
    (hwrite : env.fopenWrite (fileNames argv).2 = true) :
    ∃ rows, main L env argv
        = .terminated ⟨0, progress F argv, [], some ((fileNames argv).2, headerCall F :: rows)⟩ ∧
      rows.length = n ∧
      ∀ i, i < n →
        rows[i]? = some (expectedRow L i (m.input_x i, m.input_y i) (env.y_filt0 i)) := by
  refine ⟨(List.range n).map
    (rowCall
      (forLoop n
        (fun i a =>
          (store a.1 i (ofReal L (m.input_x i)), store a.2 i (ofReal L (m.input_y i))))
        (env.x0, env.y_orig0)).1
      (forLoop n
        (fun i a =>
          (store a.1 i (ofReal L (m.input_x i)), store a.2 i (ofReal L (m.input_y i))))
        (env.x0, env.y_orig0)).2
      env.y_filt0), ?_, ?_, ?_⟩
  · simp only [main, hopen, hrun, hwrite, forLoop_append]
    simp [progress]
  · simp
  · intro i hi
    obtain ⟨h1, h2⟩ := forLoop_store n
      (fun i => ofReal L (m.input_x i)) (fun i => ofReal L (m.input_y i)) env.x0 env.y_orig0 i
    rw [List.getElem?_map, List.getElem?_range hi]
    simp only [Option.map_some', rowCall, expectedRow, crealf, cimagf]
    rw [h1, h2]
    simp only [hi, if_true, ofReal]

/-- A run on a readable file whose data lines are well-formed and fit into the arrays,
with a writable output file: `main` returns 0 after writing the header and one row per
sample, made from that sample. -/
theorem main_rows_within_capacity {F : Type} (L : Libc F) (env : Env F)
    (argv : List String) (contents : List Char) (samples : List (F × F))
    (hopen : env.fopenRead (fileNames argv).1 = some contents)
    (hsamples : (dataLines contents).map (sampleOf L) = samples.map some)
    (hfit : samples.length ≤ BUFF_SIZE)
    (hwrite : env.fopenWrite (fileNames argv).2 = true) :
    ∃ rows, main L env argv
        = .terminated ⟨0, progress F argv, [], some ((fileNames argv).2, headerCall F :: rows)⟩ ∧
      rows.length = samples.length ∧
      ∀ i p, samples[i]? = some p → rows[i]? = some (expectedRow L i p (env.y_filt0 i)) := by
  have hlen := (wellFormed_of_samples L _ samples hsamples).2
  obtain ⟨m, hrun, hcells, _⟩ :=
    ingestLoop_within L env (dataLines contents) samples [] 0 ⟨env.input_x0, env.input_y0⟩
      none hsamples (by omega)
  simp only [List.append_nil, Nat.zero_add, ingestLoop] at hrun hcells
  obtain ⟨rows, hmain, hrows, hcontent⟩ :=
    main_of_eof L env argv contents _ m none hopen hrun hwrite
  refine ⟨rows, hmain, by omega, ?_⟩
  intro i p hp
  have hi : i < samples.length := by
    by_contra hge
    rw [List.getElem?_eq_none (by omega)] at hp
    simp at hp
  obtain ⟨hx, hy⟩ := hcells i p hp
  rw [hcontent i (by omega), hx, hy]

/-- C2: the code departs from the claim.  On the input with 1025 data lines `1,2`, in a
memory where `input_y` lies just below `input_x`, the sample of index 1024 is stored
outside the arrays and lands on `input_x[0]`: `main` returns 0 and row 0 carries `x = 2`,
although the first data line stands for the sample `(1, 2)`. -/
theorem overflow_changes_row :
    (dataLines overflowInput)[0]? = some "1,2\n".toList ∧
    sampleOf textLibc "1,2\n".toList = some ("1".toList, "2".toList) ∧
    ∃ t rows, main textLibc (adjacentEnv "chirp_data.csv" overflowInput ['7'])
        ["filter_chirp"] = .terminated t ∧ t.status = 0 ∧
      t.output = some ("output_data.csv", headerCall _ :: rows) ∧
      rows[0]? = some (expectedRow textLibc 0 ("2".toList, "2".toList) ⟨['7'], ['7']⟩) := by
  refine ⟨?_, by decide, ?_⟩
  · rw [dataLines_overflowInput,
      List.getElem?_append_left (by rw [List.length_replicate]; decide),
      List.getElem?_replicate]
    rfl
  · have hmap : (List.replicate 1024 ("1,2".toList ++ ['\n'])).map (sampleOf textLibc)
        = (List.replicate 1024 ("1".toList, "2".toList)).map some := by
      rw [List.map_replicate, List.map_replicate]
      rfl
    obtain ⟨m, hrun, hcells, _⟩ :=
      ingestLoop_within textLibc (adjacentEnv "chirp_data.csv" overflowInput ['7'])
        (List.replicate 1024 ("1,2".toList ++ ['\n'])) _ ["1,2\n".toList] 0
        ⟨fun _ => ['7'], fun _ => ['7']⟩ none hmap
        (by rw [List.length_replicate]; decide)
    have hlast : textLibc.sscanf (cstr "1,2\n".toList) = .both "1".toList "2".toList := by
      decide
    rw [List.length_replicate,
      ingestLoop_cons_both textLibc _ _ [] _ m none _ _ hlast] at hrun
    rw [ingestLoop_nil] at hrun
    obtain ⟨rows, hmain, _, hcontent⟩ :=
      main_of_eof textLibc (adjacentEnv "chirp_data.csv" overflowInput ['7'])
        ["filter_chirp"] overflowInput _ _ _ rfl
        (by rw [dataLines_overflowInput]; exact hrun) rfl
    refine ⟨_, rows, hmain, rfl, rfl, ?_⟩
    rw [hcontent 0 (by decide)]
    have hy : m.input_y 0 = "2".toList := by
      have := hcells 0 ("1".toList, "2".toList) (by
        rw [List.getElem?_replicate]; simp)
      simpa using this.2
    simp [assign_x, assign_y, adjacentEnv, oneFileEnv, BUFF_SIZE, store, hy, expectedRow]

/-- C5: the code departs from the claim.  On a run that returns 0 the first line
written to the output file is `sample,x,y_orig_r,y_filt_i,y_filt_r,y_filt_i`: its fourth
column is named `y_filt_i`, not `y_orig_i`, so the header differs from the documented one
and its column names are not pairwise distinct. -/
theorem header_written :
    main textLibc (oneFileEnv "chirp_data.csv" "x,y\n".toList ['7']) ["filter_chirp"]
      = .terminated ⟨0, progress _ ["filter_chirp"], [],
          some ("output_data.csv", [⟨"sample,x,y_orig_r,y_filt_i,y_filt_r,y_filt_i\n", []⟩])⟩ ∧
    (headerCall (List Char)).format ≠ "sample,x,y_orig_r,y_orig_i,y_filt_r,y_filt_i\n" ∧
    fields (chomp (headerCall (List Char)).format.toList)
      = ["sample".toList, "x".toList, "y_orig_r".toList, "y_filt_i".toList,
          "y_filt_r".toList, "y_filt_i".toList] ∧
    ¬ (fields (chomp (headerCall (List Char)).format.toList)).Nodup := by
  decide

/-- C6. With exactly two extra arguments (`argc = 3`) the input file is `argv[1]` and the
output file is `argv[2]`; with no extra argument (`argc = 1`) they are `chirp_data.csv`
and `output_data.csv`. -/
theorem fileNames_selection (a0 a1 a2 : String) :
    fileNames [a0, a1, a2] = (a1, a2) ∧
    fileNames [a0] = ("chirp_data.csv", "output_data.csv") := by
  simp [fileNames]

/-- C7, as stated, fails: with one extra argument (`argc = 2`) `main` selects the default
file names, reads `chirp_data.csv`, writes `output_data.csv` and returns 0. -/
theorem one_argument_runs :
    fileNames ["filter_chirp", "in.csv"] = ("chirp_data.csv", "output_data.csv") ∧
    main textLibc (oneFileEnv "chirp_data.csv" "x,y\n1,2\n".toList ['7'])
        ["filter_chirp", "in.csv"]
      = .terminated ⟨0,
          [⟨"Attempting to read from file \x27%s\x27.\n", [.str "chirp_data.csv"]⟩,
           ⟨"Attempting to write to file \x27%s\x27.\n", [.str "output_data.csv"]⟩], [],
          some ("output_data.csv",
            [headerCall _, expectedRow textLibc 0 ("1".toList, "2".toList) ⟨['7'], ['7']⟩])⟩ := by
  decide

/-- C7, amended. For every argument count other than two extra arguments (`argc ≠ 3`),
`main` selects the default file names `chirp_data.csv` and `output_data.csv` and runs
exactly as it does without extra arguments. -/
theorem other_argc_uses_defaults {F : Type} (L : Libc F) (env : Env F) (argv : List String)
    (h : argv.length ≠ 3) :
    fileNames argv = ("chirp_data.csv", "output_data.csv") ∧
    main L env argv = main L env ["filter_chirp"] := by
  have e : fileNames argv = fileNames ["filter_chirp"] := by simp [fileNames, h]
  refine ⟨by simp [fileNames, h], ?_⟩
  simp only [main, e]

theorem other_argc_uses_defaults_witness :
    fileNames ["filter_chirp", "a", "b", "c"] = ("chirp_data.csv", "output_data.csv") ∧
    main textLibc sampleEnv ["filter_chirp", "a", "b", "c"]
      = main textLibc sampleEnv ["filter_chirp"] :=
  other_argc_uses_defaults textLibc sampleEnv ["filter_chirp", "a", "b", "c"] (by decide)

/-- C8: the code departs from the claim.  On the input whose only sample is `0,0`, with the
block allocated for `y_filt` holding a value other than zero, `main` writes that value
in both filtered columns: `y_filt` is never assigned. -/
theorem zero_signal_prints_buffer :
    main textLibc (oneFileEnv "chirp_data.csv" "x,y\n0,0\n".toList ['7']) ["filter_chirp"]
      = .terminated ⟨0, progress _ ["filter_chirp"], [],
          some ("output_data.csv",
            [headerCall _,
             ⟨"%d,%8.4f,%8.4f,%8.4f,%8.4f,%8.4f\n",
              [.uint 0, .float textLibc.zero, .float textLibc.zero, .float textLibc.zero,
                .float ['7'], .float ['7']]⟩])⟩ ∧
    (['7'] : List Char) ≠ textLibc.zero := by
  decide

/-- C9. The ingest loop stores sample `i` in arrays of `BUFF_SIZE = 1024` entries without
a bounds check: started at `i = 0` on at most 1024 data lines it never stores outside
the arrays, and on 1025 or more well-formed data lines it reaches a store at index 1024,
its first store outside the arrays, and goes on to the end of the file instead of
stopping or ending with a parse error. -/
theorem ingest_buffer_bounds {F : Type} (L : Libc F) (env : Env F)
    (lines : List (List Char)) (m : Arrays F) :
    BUFF_SIZE = 1024 ∧
    (lines.length ≤ 1024 → (ingestLoop L env lines 0 m none).oob = none) ∧
    (1025 ≤ lines.length → (∀ l ∈ lines, wellFormed L l) →
      ∃ m', ingestLoop L env lines 0 m none = .eof lines.length m' (some 1024)) := by
  refine ⟨rfl, ?_, ?_⟩
  · intro hlen
    exact ingestLoop_oob_none L env lines 0 m (by simpa [BUFF_SIZE] using hlen)
  · intro hlen hwf
    have hoob := ingestLoop_oob_first L env lines 0 m
      (fun l hl => hwf l (List.mem_of_mem_take hl)) (Nat.zero_le _)
      (by simp only [BUFF_SIZE]; omega)
    obtain ⟨m', oob', hrun⟩ := ingestLoop_valid L env lines 0 m none hwf
    rw [hrun] at hoob
    simp only [Ingest.oob] at hoob
    rw [hoob, Nat.zero_add] at hrun
    exact ⟨m', hrun⟩

theorem ingest_buffer_bounds_witness :
    (ingestLoop textLibc sampleEnv (dataLines sampleInput) 0
        ⟨fun _ => ['7'], fun _ => ['7']⟩ none).oob = none ∧
    ∃ m', ingestLoop textLibc sampleEnv (List.replicate 1025 ("1,2".toList ++ ['\n'])) 0
        ⟨fun _ => ['7'], fun _ => ['7']⟩ none
      = .eof (List.replicate 1025 ("1,2".toList ++ ['\n'])).length m' (some 1024) :=
  ⟨(ingest_buffer_bounds textLibc sampleEnv (dataLines sampleInput)
      ⟨fun _ => ['7'], fun _ => ['7']⟩).2.1 (by decide),
    (ingest_buffer_bounds textLibc sampleEnv (List.replicate 1025 ("1,2".toList ++ ['\n']))
      ⟨fun _ => ['7'], fun _ => ['7']⟩).2.2
      (by rw [List.length_replicate])
      (by
        intro l hl
        rw [(List.mem_replicate.mp hl).2]
        decide)⟩

/-- C10, as stated, fails: the normalized cutoff frequency configured by `main` is not
below 0.5. -/
theorem cutoff_not_below_half :
    ¬ (0 < filterConfig.fc ∧ filterConfig.fc < 1 / 2 ∧ 0 < filterConfig.order) := by
  norm_num [filterConfig]

/-- C10, amended. The normalized cutoff frequency configured by `main` is
`fc = Fc / Fs = 1.0 / 1.0 = 1`: it is positive but not below 0.5; the configured filter
order is 1, a positive integer. -/
theorem configured_cutoff_and_order :
    filterConfig.fc = filterConfig.Fc / filterConfig.Fs ∧
    filterConfig.Fc = 1 ∧ filterConfig.Fs = 1 ∧ filterConfig.fc = 1 ∧
    0 < filterConfig.fc ∧ ¬ filterConfig.fc < 1 / 2 ∧
    filterConfig.order = 1 ∧ 0 < filterConfig.order := by
  norm_num [filterConfig]

end FilterChirp
